import Mathlib

/-!
Verification of the route-matching, guard-pipeline and navigation core of
the `better-svelte-router` repository (TypeScript), via a shallow embedding:
each TypeScript function is translated into an executable Lean definition,
and the specification's claims are settled as theorems about those
definitions.

Embedding conventions:
* JavaScript strings are Lean `String`s; character-level operations work on
  `String.data` (`List Char`).
* A thrown JavaScript exception is modelled with `Except Unit` (`.error ()`);
  functions that cannot throw stay pure.
* `async`/`await` sequencing collapses to ordinary sequential evaluation
  (the pipeline awaits each guard before continuing).
* The external `path-to-regexp` compiler is not part of the repository; it
  is modelled from the spec (see `regexpMatch`).
-/

namespace Router

/-! ## Path normalizer (`src/matcher.ts`, `normalizePath`)

`path.replace(/\/+/g, '/')` rewrites every maximal run of `'/'` characters
to a single `'/'`; `collapseSlashes` is that operation on character lists. -/

def collapseSlashes : List Char → List Char
  | [] => []
  | [c] => [c]
  | c :: d :: rest =>
    if c = '/' ∧ d = '/' then collapseSlashes (d :: rest)
    else c :: collapseSlashes (d :: rest)

/-- Whether a character list contains two adjacent `'/'` characters
(the doubled separator `"//"`). -/
def hasDoubleSlash : List Char → Bool
  | [] => false
  | [_] => false
  | a :: b :: rest => (a == '/' && b == '/') || hasDoubleSlash (b :: rest)

/-- `if (!normalized.startsWith('/')) normalized = '/' + normalized`. -/
def ensureLead (n : List Char) : List Char :=
  if n.head? = some '/' then n else '/' :: n

/-- `if (normalized.length > 1 && normalized.endsWith('/')) normalized =
normalized.slice(0, -1)`. -/
def stripTrail (n : List Char) : List Char :=
  if 1 < n.length ∧ n.getLast? = some '/' then n.dropLast else n

/-- The body of `normalizePath` for a non-empty, non-root input: collapse
slash runs, ensure a leading `'/'`, then strip a trailing `'/'` unless the
result would be the bare root. -/
def normChar (l : List Char) : List Char :=
  stripTrail (ensureLead (collapseSlashes l))

/-- `normalizePath` from `src/matcher.ts`. -/
def normalizePath (path : String) : String :=
  if path = "" ∨ path = "/" then "/"
  else ⟨normChar path.data⟩

/-! ## Pattern compiler (external dependency `path-to-regexp`)

Modelled from the spec: the repository compiles a full path template with
the external `path-to-regexp` package (`pathToRegexp(path)` returning a
`regexp` and ordered `keys`), which is not part of this repository.  Per
the spec, a template is `'/'`-separated segments: a literal segment matches
itself, a `:name` segment is a parameter capturing one non-empty
non-separator segment, and a trailing `*name` wildcard segment captures the
remainder of the path; the compiled matcher tests the whole string.  The
optional-trailing-separator and case-folding conveniences of the library
are not modelled: every tested pathname and template in the matcher has
been normalized first (no trailing separator, no doubled separator). -/

/-- Split a character list at `'/'` separators, keeping empty pieces
(like JavaScript `"…".split('/')`). -/
def splitSlash : List Char → List (List Char)
  | [] => [[]]
  | c :: cs =>
    if c = '/' then [] :: splitSlash cs
    else
      match splitSlash cs with
      | s :: ss => (c :: s) :: ss
      | [] => [[c]]

/-- One template segment: literal text, a `:name` parameter, or a `*name`
trailing wildcard. -/
inductive Seg : Type where
  | lit (s : String)
  | param (name : String)
  | wildcard (name : String)
deriving DecidableEq

def parseSeg (s : String) : Seg :=
  match s.data with
  | ':' :: rest => .param ⟨rest⟩
  | '*' :: rest => .wildcard ⟨rest⟩
  | _ => .lit s

/-- The compiled token list of a template. -/
def segsOf (template : String) : List Seg :=
  (splitSlash template.data).map (fun l => parseSeg ⟨l⟩)

/-- The ordered parameter-name list of a compiled template
(`keys.map(k => k.name)` in `getRegexp`). -/
def keysOf (template : String) : List String :=
  (segsOf template).filterMap fun
    | .param n => some n
    | .wildcard n => some n
    | .lit _ => none

/-- Run the compiled matcher on the split pathname; `some caps` is a
successful whole-string match with the ordered capture list. -/
def matchSegs : List Seg → List String → Option (List (Option String))
  | [], [] => some []
  | [], _ :: _ => none
  | .lit _ :: _, [] => none
  | .lit s :: ts, p :: ps => if p = s then matchSegs ts ps else none
  | .param _ :: _, [] => none
  | .param _ :: ts, p :: ps =>
    if p ≠ "" then (matchSegs ts ps).map (some p :: ·) else none
  | .wildcard _ :: ts, ps =>
    if ts = [] ∧ ps ≠ [] then some [some (String.intercalate "/" ps)] else none

/-- `regexp.exec(pathname)` for the compiled template: `none` is a failed
match, `some caps` the captured groups in template order. -/
def regexpMatch (template pathname : String) : Option (List (Option String)) :=
  matchSegs (segsOf template) ((splitSlash pathname.data).map (⟨·⟩))

/-- `regexp.test(pathname)` for the compiled template. -/
def regexpTest (template pathname : String) : Bool :=
  (regexpMatch template pathname).isSome

/-! ## `decodeURIComponent` / `encodeURIComponent`

JavaScript's `decodeURIComponent` throws a `URIError` on a malformed
percent-sequence (bad hex digits, or bytes that are not a strict UTF-8
encoding); the model returns `none` exactly where it throws. -/

def hexDigit? (c : Char) : Option Nat :=
  if '0' ≤ c ∧ c ≤ '9' then some (c.toNat - 48)
  else if 'A' ≤ c ∧ c ≤ 'F' then some (c.toNat - 55)
  else if 'a' ≤ c ∧ c ≤ 'f' then some (c.toNat - 87)
  else none

/-- First pass of ECMA-262 `Decode`: each `%HH` becomes a byte, every other
character passes through; a `%` not followed by two hex digits throws. -/
def lexPct : List Char → Option (List (Nat ⊕ Char))
  | [] => some []
  | '%' :: a :: b :: rest =>
    match hexDigit? a, hexDigit? b with
    | some x, some y => (lexPct rest).map (.inl (16 * x + y) :: ·)
    | _, _ => none
  | '%' :: _ => none
  | c :: rest => (lexPct rest).map (.inr c :: ·)

/-- Is `b` a UTF-8 continuation byte. -/
def isCont (b : Nat) : Bool := 0x80 ≤ b ∧ b ≤ 0xBF

/-- Second pass of ECMA-262 `Decode`: percent-introduced bytes must form
strict UTF-8 sequences (continuations themselves percent-encoded); anything
else throws. -/
def dec2 : List (Nat ⊕ Char) → Option (List Char)
  | [] => some []
  | .inr c :: rest => (dec2 rest).map (c :: ·)
  | .inl b :: rest =>
    if b < 0x80 then (dec2 rest).map (Char.ofNat b :: ·)
    else if 0xC2 ≤ b ∧ b ≤ 0xDF then
      match rest with
      | .inl b2 :: rest2 =>
        if isCont b2 then
          (dec2 rest2).map (Char.ofNat ((b - 0xC0) * 64 + (b2 - 0x80)) :: ·)
        else none
      | _ => none
    else if 0xE0 ≤ b ∧ b ≤ 0xEF then
      match rest with
      | .inl b2 :: .inl b3 :: rest2 =>
        if isCont b2 ∧ isCont b3 ∧ (b = 0xE0 → 0xA0 ≤ b2) ∧ (b = 0xED → b2 ≤ 0x9F) then
          (dec2 rest2).map
            (Char.ofNat ((b - 0xE0) * 4096 + (b2 - 0x80) * 64 + (b3 - 0x80)) :: ·)
        else none
      | _ => none
    else if 0xF0 ≤ b ∧ b ≤ 0xF4 then
      match rest with
      | .inl b2 :: .inl b3 :: .inl b4 :: rest2 =>
        if isCont b2 ∧ isCont b3 ∧ isCont b4 ∧
            (b = 0xF0 → 0x90 ≤ b2) ∧ (b = 0xF4 → b2 ≤ 0x8F) then
          (dec2 rest2).map
            (Char.ofNat
              ((b - 0xF0) * 262144 + (b2 - 0x80) * 4096 + (b3 - 0x80) * 64 + (b4 - 0x80)) :: ·)
        else none
      | _ => none
    else none

/-- JavaScript `decodeURIComponent`; `none` models a thrown `URIError`. -/
def decodeURIComponent (s : String) : Option String :=
  ((lexPct s.data).bind dec2).map (⟨·⟩)

def isURIUnreserved (c : Char) : Bool :=
  c.isAlphanum || c ∈ ['-', '_', '.', '!', '~', '*', '\'', '(', ')']

def utf8Bytes (c : Char) : List Nat :=
  let n := c.toNat
  if n < 0x80 then [n]
  else if n < 0x800 then [0xC0 + n / 64, 0x80 + n % 64]
  else if n < 0x10000 then [0xE0 + n / 4096, 0x80 + (n / 64) % 64, 0x80 + n % 64]
  else [0xF0 + n / 262144, 0x80 + (n / 4096) % 64, 0x80 + (n / 64) % 64, 0x80 + n % 64]

def hexUpper (n : Nat) : Char := if n < 10 then Char.ofNat (48 + n) else Char.ofNat (55 + n)

/-- JavaScript `encodeURIComponent` (total). -/
def encodeURIComponent (s : String) : String :=
  ⟨s.data.flatMap fun c =>
    if isURIUnreserved c then [c]
    else (utf8Bytes c).flatMap fun b => ['%', hexUpper (b / 16), hexUpper (b % 16)]⟩

/-! ## Parameter extraction (`src/matcher.ts`, `extractParams`)

The `for` loop of `extractParams`: index `i` walks the key list, `match[i+1]`
is the `i`-th capture (`none` past the end of the capture list models an
`undefined` group, which the loop skips); a defined capture is
percent-decoded, and a `URIError` from `decodeURIComponent` propagates
(`.error ()`). -/

def extractLoop : List String → List (Option String) → Except Unit (List (String × String))
  | [], _ => .ok []
  | _ :: ks, [] => extractLoop ks []
  | _ :: ks, none :: cs => extractLoop ks cs
  | k :: ks, some v :: cs =>
    match decodeURIComponent v with
    | none => .error ()
    | some d => (extractLoop ks cs).map (fun ps => (k, d) :: ps)

/-- `extractParams` from `src/matcher.ts`: `.ok []` when the matcher fails;
otherwise the loop above over the compiled key list and the captures.  The
result mapping is the ordered association list (the spec guarantees
parameter names are unique within a template). -/
def extractParams (pattern pathname : String) : Except Unit (List (String × String)) :=
  match regexpMatch pattern pathname with
  | none => .ok []
  | some caps => extractLoop (keysOf pattern) caps

/-- Percent-decode every value of an association list, in order, throwing
at the first malformed value. -/
def decodeAll : List (String × String) → Except Unit (List (String × String))
  | [] => .ok []
  | (k, v) :: rest =>
    match decodeURIComponent v with
    | none => .error ()
    | some d => (decodeAll rest).map (fun ps => (k, d) :: ps)

/-- The spec's description of extraction, stated independently of the loop:
zip the key list with the captures, keep the defined ones in order, and
percent-decode each value (a malformed value throws). -/
def zipDecoded (keys : List String) (caps : List (Option String)) :
    Except Unit (List (String × String)) :=
  decodeAll ((keys.zip caps).filterMap fun kc => kc.2.map (fun v => (kc.1, v)))

/-! ## Route configuration and matching (`src/types.ts`, `src/matcher.ts`)

`IRoute` keeps the fields the matcher reads: `name`, `path`, `children`
(`[]` models both an absent and an empty children array — the matcher only
ever asks whether it is non-empty), `redirect`, and `meta` as an association
list (`[]` models an absent meta, matching `route.meta ?? {}`). -/

inductive IRoute : Type where
  | mk (name : Option String) (path : String) (children : List IRoute)
       (redirect : Option String) (meta : List (String × String)) : IRoute

def IRoute.name : IRoute → Option String
  | .mk n _ _ _ _ => n

def IRoute.path : IRoute → String
  | .mk _ p _ _ _ => p

def IRoute.children : IRoute → List IRoute
  | .mk _ _ cs _ _ => cs

def IRoute.redirect : IRoute → Option String
  | .mk _ _ _ rd _ => rd

def IRoute.meta : IRoute → List (String × String)
  | .mk _ _ _ _ m => m

/-- `MatchedRoute` from `src/types.ts`. -/
structure MatchedRoute where
  route : IRoute
  path : String
  params : List (String × String)
  meta : List (String × String)

/-- The full path of a node:
`normalizePath(prefix === '/' ? '/'+route.path : prefix+'/'+route.path)`. -/
def fullPathOf (pre : String) (path : String) : String :=
  normalizePath (if pre = "/" then "/" ++ path else pre ++ "/" ++ path)

/-- JavaScript `s.startsWith(pat)`. -/
def jsStartsWith (s pat : String) : Bool :=
  pat.data.isPrefixOf s.data

/-- The per-node inclusion test of `findMatchingRoutes`:
`regexp.test(normalizedPathname) || normalizedPathname.startsWith(fullPath)`. -/
def includedCond (fp np : String) : Bool :=
  regexpTest fp np || jsStartsWith np fp

/-- The sibling loop of `matchRoute`.  The source guards each recursive call
with `route.children && route.children.length > 0`; the call on `[]`
returns `.ok none` by definition, so the guard is omitted.  Recursive calls
re-enter through `matchRoute`, which re-normalizes the pathname — hence the
`normalizePath np` on the children calls. -/
def matchLoop : List IRoute → String → String → Except Unit (Option MatchedRoute)
  | [], _, _ => .ok none
  | (IRoute.mk nm p cs rd mt) :: rest, np, pre =>
    if p = "/" ∧ pre = "" then
      match matchLoop cs (normalizePath np) "/" with
      | .error e => .error e
      | .ok (some m) => .ok (some m)
      | .ok none =>
        if np = "/" then .ok (some ⟨IRoute.mk nm p cs rd mt, "/", [], mt⟩)
        else matchLoop rest np pre
    else
      if regexpTest (fullPathOf pre p) np then
        match matchLoop cs (normalizePath np) (fullPathOf pre p) with
        | .error e => .error e
        | .ok (some m) => .ok (some m)
        | .ok none =>
          match extractParams (fullPathOf pre p) np with
          | .error e => .error e
          | .ok ps => .ok (some ⟨IRoute.mk nm p cs rd mt, fullPathOf pre p, ps, mt⟩)
      else
        match matchLoop cs (normalizePath np) (fullPathOf pre p) with
        | .error e => .error e
        | .ok (some m) => .ok (some m)
        | .ok none => matchLoop rest np pre

/-- `matchRoute` from `src/matcher.ts` (the `.error` side models a
propagated `URIError` from parameter decoding). -/
def matchRoute (routes : List IRoute) (pathname : String) (pre : String := "") :
    Except Unit (Option MatchedRoute) :=
  matchLoop routes (normalizePath pathname) pre

/-- The sibling loop of `findMatchingRoutes` (same conventions as
`matchLoop`). -/
def findLoop : List IRoute → String → String → Except Unit (List MatchedRoute)
  | [], _, _ => .ok []
  | (IRoute.mk nm p cs rd mt) :: rest, np, pre =>
    if p = "/" ∧ pre = "" then
      match findLoop cs (normalizePath np) "/" with
      | .error e => .error e
      | .ok (m :: ms) =>
        .ok (⟨IRoute.mk nm p cs rd mt, "/", [], mt⟩ :: m :: ms)
      | .ok [] =>
        if np = "/" then .ok [⟨IRoute.mk nm p cs rd mt, "/", [], mt⟩]
        else findLoop rest np pre
    else
      if includedCond (fullPathOf pre p) np then
        match extractParams (fullPathOf pre p) np with
        | .error e => .error e
        | .ok ps =>
          match findLoop cs (normalizePath np) (fullPathOf pre p) with
          | .error e => .error e
          | .ok childMatches =>
            .ok (⟨IRoute.mk nm p cs rd mt, fullPathOf pre p, ps, mt⟩ :: childMatches)
      else findLoop rest np pre

/-- `findMatchingRoutes` from `src/matcher.ts`. -/
def findMatchingRoutes (routes : List IRoute) (pathname : String) (pre : String := "") :
    Except Unit (List MatchedRoute) :=
  findLoop routes (normalizePath pathname) pre

/-! ## Guard pipeline (`src/guards.ts`)

A guard is a function of `(from, to)`; its observable behaviour per call is
one of: return `true`/`false`, return a string (redirect), return nothing
(`undefined`/`void`), or throw.  `await` of a synchronous or asynchronous
guard collapses to evaluating the function. -/

inductive GuardOutcome : Type where
  | ret (b : Bool)
  | redirect (s : String)
  | retVoid
  | throw (msg : String)
deriving DecidableEq

/-- A registered `beforeEach` guard. -/
abbrev Guard := String → String → GuardOutcome

/-- The value `runGuards` resolves with: `true`, `false`, or a redirect
path string. -/
inductive GuardRunResult : Type where
  | allow
  | cancel
  | redirect (s : String)
deriving DecidableEq

/-- Instrumented run of the guard loop: the resolved value, how many guards
were invoked, and the messages passed to `console.error`. -/
structure GuardTrace where
  result : GuardRunResult
  invoked : Nat
  logged : List String
deriving DecidableEq

/-- The `for…of` loop of `runGuards` over the `beforeGuards` registry:
`false` and string results return immediately; a thrown error is caught,
logged and returns `false`; `true`/`undefined` continue; an exhausted
registry returns `true`. -/
def runGuardsT (guards : List Guard) (frm tgt : String) : GuardTrace :=
  match guards with
  | [] => ⟨.allow, 0, []⟩
  | g :: gs =>
    match g frm tgt with
    | .ret false => ⟨.cancel, 1, []⟩
    | .redirect s => ⟨.redirect s, 1, []⟩
    | .throw m => ⟨.cancel, 1, [m]⟩
    | .ret true =>
      let r := runGuardsT gs frm tgt
      ⟨r.result, r.invoked + 1, r.logged⟩
    | .retVoid =>
      let r := runGuardsT gs frm tgt
      ⟨r.result, r.invoked + 1, r.logged⟩

/-- `runGuards` from `src/guards.ts` (the resolved value only). -/
def runGuards (guards : List Guard) (frm tgt : String) : GuardRunResult :=
  (runGuardsT guards frm tgt).result

/-- A guard outcome that lets the loop continue (`true`, or no explicit
return value). -/
def isAffirmative (o : GuardOutcome) : Prop :=
  o = .ret true ∨ o = .retVoid

/-! ## Navigation orchestrator (`src/navigation.ts`)

The environment visible to `push`/`replace`, specialized to the
history-mode adapter with empty base (the lazily constructed default):
`loc` is what `adapter.getCurrentPath()` returns, `origin` the constant
`window.location.origin`, `href` the shared `routerState.href`,
`pushedOps`/`replacedOps` the `(path, search)` arguments of every
`adapter.push`/`adapter.replace` call, and `afterCalls` the `(from, to)`
arguments of every `runAfterHooks` call. -/

structure NavEnv where
  loc : String
  origin : String
  href : String
  pushedOps : List (String × String)
  replacedOps : List (String × String)
  afterCalls : List (String × String)
deriving DecidableEq

/-- A query value: `none` models `undefined`/`null` (the key is omitted),
`some s` the string rendering `String(value)` of a present value. -/
abbrev QueryParams := List (String × Option String)

/-- `buildSearchString` from `src/navigation.ts`. -/
def buildSearchString (query : Option QueryParams) : String :=
  match query with
  | none => ""
  | some q =>
    let entries := (q.filter (fun kv => kv.2.isSome)).map fun kv =>
      encodeURIComponent kv.1 ++ "=" ++ encodeURIComponent (kv.2.getD "")
    if entries.isEmpty then "" else "?" ++ String.intercalate "&" entries

/-- `push` from `src/navigation.ts`, fuel-indexed because the redirect
branch re-invokes `push` on the guard's target and nothing bounds that
recursion; `none` means the recursion did not finish within `fuel` steps
(in JavaScript: the promise never settles).  On the allow path the
adapter's `push` encodes `(to, search)`, `window.location.href` becomes
origin+path+search, `routerState.href` is updated to it, and the
after-hooks run with `(from, to)`. -/
def pushF (guards : List Guard) : Nat → String → Option QueryParams → NavEnv →
    Option Bool × NavEnv
  | fuel, tgt, query, env =>
    let frm := env.loc
    match runGuards guards frm tgt with
    | .cancel => (some false, env)
    | .redirect s =>
      match fuel with
      | 0 => (none, env)
      | n + 1 => pushF guards n s (some []) env
    | .allow =>
      let search := buildSearchString query
      let env := { env with
        loc := tgt,
        href := env.origin ++ tgt ++ search,
        pushedOps := env.pushedOps ++ [(tgt, search)],
        afterCalls := env.afterCalls ++ [(frm, tgt)] }
      (some true, env)

/-- `replace` from `src/navigation.ts` (identical to `push` except that the
adapter call is `replaceState`). -/
def replaceF (guards : List Guard) : Nat → String → Option QueryParams → NavEnv →
    Option Bool × NavEnv
  | fuel, tgt, query, env =>
    let frm := env.loc
    match runGuards guards frm tgt with
    | .cancel => (some false, env)
    | .redirect s =>
      match fuel with
      | 0 => (none, env)
      | n + 1 => replaceF guards n s (some []) env
    | .allow =>
      let search := buildSearchString query
      let env := { env with
        loc := tgt,
        href := env.origin ++ tgt ++ search,
        replacedOps := env.replacedOps ++ [(tgt, search)],
        afterCalls := env.afterCalls ++ [(frm, tgt)] }
      (some true, env)

/-! ## History-mode adapter (`src/router-mode.ts`) -/

/-- The constructor of `HistoryModeAdapter`:
`this.base = base.replace(/\/$/, '')` (one trailing separator removed). -/
def historyBase (base : String) : String :=
  if base.data.getLast? = some '/' then ⟨base.data.dropLast⟩ else base

/-- JavaScript `str.replace(pat, '')` for a plain-string `pat`: remove the
first occurrence of `pat`, leaving the string unchanged when there is
none. -/
def removeFirstOcc (l pat : List Char) : List Char :=
  if pat.isPrefixOf l then l.drop pat.length
  else
    match l with
    | [] => []
    | c :: cs => c :: removeFirstOcc cs pat

/-- `HistoryModeAdapter.getCurrentPath()`: the stored base (if non-empty)
is removed from `window.location.pathname`, and an empty remainder yields
the root path. -/
def getCurrentPath (storedBase pathname : String) : String :=
  let path := if storedBase = "" then pathname
              else ⟨removeFirstOcc pathname.data storedBase.data⟩
  if path = "" then "/" else path

/-! ## Concrete fixtures used by the witnesses and counterexamples -/

/-- The `child` node of the nested `parent > child` configuration. -/
def childRoute : IRoute := .mk none "child" [] none []

/-- The `parent` node of the nested `parent > child` configuration. -/
def parentRoute : IRoute := .mk none "parent" [childRoute] none []

/-- A route whose full path is `/user` (ancestor in the `/username`
prefix-check scenario). -/
def userRoute : IRoute := .mk (some "A") "user" [] none []

/-- First of two sibling routes with the same path `a`. -/
def routeA : IRoute := .mk (some "A") "a" [] none []

/-- Second of two sibling routes with the same path `a`. -/
def routeB : IRoute := .mk (some "B") "a" [] none []

/-- A guard that allows every navigation. -/
def gAllow : Guard := fun _ _ => .ret true

/-- A guard that cancels every navigation. -/
def gCancel : Guard := fun _ _ => .ret false

/-- A guard that throws on every navigation. -/
def gBoom : Guard := fun _ _ => .throw "boom"

/-- The auth-style guard: allow navigation to `/login`, redirect everything
else there. -/
def loginGuard : Guard := fun _ tgt => if tgt = "/login" then .ret true else .redirect "/login"

/-- A guard that redirects literally every navigation to `/login`. -/
def alwaysLoginGuard : Guard := fun _ _ => .redirect "/login"

/-- A starting environment: at the root path, no adapter calls and no hook
calls recorded yet. -/
def demoEnv : NavEnv :=
  { loc := "/", origin := "https://ex.am", href := "https://ex.am/",
    pushedOps := [], replacedOps := [], afterCalls := [] }

/-! # Theorems -/

/-! ### Lemmas about the normalizer -/

theorem hasDoubleSlash_cons_of_ne {c : Char} (t : List Char) (h : c ≠ '/') :
    hasDoubleSlash (c :: t) = hasDoubleSlash t := by
  cases t with
  | nil => simp [hasDoubleSlash]
  | cons b rest => simp [hasDoubleSlash, h]

theorem hasDoubleSlash_cons_slash (t : List Char) (h : t.head? ≠ some '/') :
    hasDoubleSlash ('/' :: t) = hasDoubleSlash t := by
  cases t with
  | nil => simp [hasDoubleSlash]
  | cons b rest =>
    have hb : b ≠ '/' := by
      intro hb; exact h (by simp [hb])
    simp [hasDoubleSlash, hb]

theorem collapseSlashes_head? (l : List Char) :
    (collapseSlashes l).head? = l.head? := by
  induction l with
  | nil => rfl
  | cons c cs ih =>
    cases cs with
    | nil => rfl
    | cons d rest =>
      rw [collapseSlashes]
      split
      · next h =>
        rw [ih]
        simp [h.1, h.2]
      · simp

theorem collapseSlashes_no_double (l : List Char) :
    hasDoubleSlash (collapseSlashes l) = false := by
  induction l with
  | nil => rfl
  | cons c cs ih =>
    cases cs with
    | nil => rfl
    | cons d rest =>
      rw [collapseSlashes]
      split
      · exact ih
      · next h =>
        by_cases hc : c = '/'
        · have hd : d ≠ '/' := by
            intro hd; exact h ⟨hc, hd⟩
          subst hc
          rw [hasDoubleSlash_cons_slash]
          · exact ih
          · rw [collapseSlashes_head?]
            simpa using hd
        · rw [hasDoubleSlash_cons_of_ne _ hc]
          exact ih

theorem collapseSlashes_of_no_double (l : List Char) (h : hasDoubleSlash l = false) :
    collapseSlashes l = l := by
  induction l with
  | nil => rfl
  | cons c cs ih =>
    cases cs with
    | nil => rfl
    | cons d rest =>
      simp only [hasDoubleSlash, Bool.or_eq_false_iff, Bool.and_eq_false_imp,
        beq_iff_eq] at h
      rw [collapseSlashes]
      rw [if_neg]
      · rw [ih h.2]
      · intro ⟨hc, hd⟩
        have := h.1 hc
        simp [hd] at this

theorem hasDoubleSlash_cons_true (a : Char) (l : List Char)
    (h : hasDoubleSlash l = true) : hasDoubleSlash (a :: l) = true := by
  cases l with
  | nil => simp [hasDoubleSlash] at h
  | cons b rest => simp [hasDoubleSlash, h]

theorem hasDoubleSlash_append_double (d t : List Char) :
    hasDoubleSlash (d ++ '/' :: '/' :: t) = true := by
  induction d with
  | nil => simp [hasDoubleSlash]
  | cons a d' ih => exact hasDoubleSlash_cons_true a _ ih

theorem hasDoubleSlash_append_left (l t : List Char)
    (h : hasDoubleSlash (l ++ t) = false) : hasDoubleSlash l = false := by
  induction l with
  | nil => simp [hasDoubleSlash]
  | cons a l' ih =>
    cases l' with
    | nil => simp [hasDoubleSlash]
    | cons b rest =>
      simp only [List.cons_append, hasDoubleSlash, Bool.or_eq_false_iff] at h ⊢
      exact ⟨h.1, ih h.2⟩

theorem head?_dropLast {α : Type} (l : List α) (h : 1 < l.length) :
    l.dropLast.head? = l.head? := by
  cases l with
  | nil => simp at h
  | cons a rest =>
    cases rest with
    | nil => simp at h
    | cons b rest' => simp [List.dropLast]

theorem ensureLead_head (n : List Char) : (ensureLead n).head? = some '/' := by
  unfold ensureLead
  split
  · assumption
  · simp

theorem ensureLead_no_double (n : List Char) (hd : hasDoubleSlash n = false) :
    hasDoubleSlash (ensureLead n) = false := by
  unfold ensureLead
  split
  · exact hd
  · next h => rwa [hasDoubleSlash_cons_slash _ h]

/-- A list without doubled slashes whose last two elements would both be
slashes is impossible; hence `dropLast` of such a list that ends in a slash
cannot itself end in a slash. -/
theorem stripTrail_spec (n : List Char) (hd : hasDoubleSlash n = false) :
    (stripTrail n).head? = n.head? ∧
    hasDoubleSlash (stripTrail n) = false ∧
    (1 < (stripTrail n).length → (stripTrail n).getLast? ≠ some '/') := by
  unfold stripTrail
  split
  · next hcond =>
    obtain ⟨hlen, hlast⟩ := hcond
    have hne : n ≠ [] := by
      intro h; rw [h] at hlen; simp at hlen
    have hsplit2 : n = n.dropLast ++ [n.getLast hne] :=
      (List.dropLast_append_getLast hne).symm
    refine ⟨head?_dropLast _ hlen, ?_, ?_⟩
    · exact hasDoubleSlash_append_left _ _ (hsplit2 ▸ hd)
    · intro hlen' hlast'
      have hdne : n.dropLast ≠ [] := by
        intro h; rw [h] at hlen'; simp at hlen'
      have hgl : n.getLast hne = '/' := by
        have h' := List.getLast?_eq_getLast n hne
        rw [h'] at hlast
        exact Option.some.inj hlast
      have hgl' : n.dropLast.getLast hdne = '/' := by
        have h' := List.getLast?_eq_getLast n.dropLast hdne
        rw [h'] at hlast'
        exact Option.some.inj hlast'
      have hsplit1 : n.dropLast = n.dropLast.dropLast ++ [n.dropLast.getLast hdne] :=
        (List.dropLast_append_getLast hdne).symm
      have hdd : n = n.dropLast.dropLast ++ '/' :: '/' :: [] := by
        conv_lhs => rw [hsplit2]
        conv_lhs => rw [hsplit1]
        rw [hgl, hgl']
        simp
      rw [hdd, hasDoubleSlash_append_double] at hd
      exact absurd hd (by simp)
  · next hcond =>
    refine ⟨rfl, hd, ?_⟩
    intro hlen hlast
    exact hcond ⟨hlen, hlast⟩

/-- The three structural invariants of a normalized (non-root-case) path:
leading separator, no doubled separator, no trailing separator unless
the whole path is the root. -/
theorem normChar_spec (l : List Char) :
    (normChar l).head? = some '/' ∧
    hasDoubleSlash (normChar l) = false ∧
    (1 < (normChar l).length → (normChar l).getLast? ≠ some '/') := by
  have h2d : hasDoubleSlash (ensureLead (collapseSlashes l)) = false :=
    ensureLead_no_double _ (collapseSlashes_no_double l)
  have hs := stripTrail_spec (ensureLead (collapseSlashes l)) h2d
  unfold normChar
  exact ⟨hs.1.trans (ensureLead_head _), hs.2.1, hs.2.2⟩

theorem normChar_ne_nil (l : List Char) : normChar l ≠ [] := by
  intro h
  have hh := (normChar_spec l).1
  rw [h] at hh
  simp at hh

theorem normChar_fixpoint (n : List Char)
    (hh : n.head? = some '/') (hd : hasDoubleSlash n = false)
    (hl : 1 < n.length → n.getLast? ≠ some '/') : normChar n = n := by
  unfold normChar ensureLead stripTrail
  rw [collapseSlashes_of_no_double n hd, if_pos hh]
  rw [if_neg]
  intro ⟨h1, h2⟩
  exact hl h1 h2

theorem slash_data : ("/" : String).data = ['/'] := rfl

theorem normalizePath_idem (p : String) :
    normalizePath (normalizePath p) = normalizePath p := by
  unfold normalizePath
  split
  · simp
  · next h =>
    set n := normChar p.data with hn
    by_cases hroot : (⟨n⟩ : String) = "/"
    · rw [if_pos (Or.inr hroot), hroot]
    · rw [if_neg]
      · have spec := normChar_spec p.data
        rw [← hn] at spec
        show (⟨normChar (String.data ⟨n⟩)⟩ : String) = ⟨n⟩
        have : (⟨n⟩ : String).data = n := rfl
        rw [this, normChar_fixpoint n spec.1 spec.2.1 spec.2.2]
      · rintro (he | hr)
        · have : n = [] := congrArg String.data he
          exact normChar_ne_nil p.data (hn ▸ this)
        · exact hroot hr

theorem normalizePath_head (p : String) :
    (normalizePath p).data.head? = some '/' := by
  unfold normalizePath
  split
  · rfl
  · exact (normChar_spec p.data).1

theorem normalizePath_no_double (p : String) :
    hasDoubleSlash (normalizePath p).data = false := by
  unfold normalizePath
  split
  · rfl
  · exact (normChar_spec p.data).2.1

theorem normalizePath_no_trailing (p : String) (h : 1 < (normalizePath p).length) :
    (normalizePath p).data.getLast? ≠ some '/' := by
  revert h
  unfold normalizePath
  split
  · intro h; rw [String.length] at h; simp [slash_data] at h
  · intro h
    exact (normChar_spec p.data).2.2 (by rw [String.length] at h; exact h)

/-! ### Lemmas about the guard pipeline -/

theorem runGuardsT_cons_affirm (g : Guard) (gs : List Guard) (frm tgt : String)
    (h : isAffirmative (g frm tgt)) :
    runGuardsT (g :: gs) frm tgt =
      ⟨(runGuardsT gs frm tgt).result, (runGuardsT gs frm tgt).invoked + 1,
        (runGuardsT gs frm tgt).logged⟩ := by
  rcases h with h | h <;> simp [runGuardsT, h]

theorem runGuardsT_append_affirm (pre gs : List Guard) (frm tgt : String)
    (h : ∀ g ∈ pre, isAffirmative (g frm tgt)) :
    runGuardsT (pre ++ gs) frm tgt =
      ⟨(runGuardsT gs frm tgt).result, (runGuardsT gs frm tgt).invoked + pre.length,
        (runGuardsT gs frm tgt).logged⟩ := by
  induction pre with
  | nil => simp
  | cons g pre ih =>
    have hg := h g (List.mem_cons_self _ _)
    rw [List.cons_append, runGuardsT_cons_affirm _ _ _ _ hg,
      ih (fun g' hg' => h g' (List.mem_cons_of_mem _ hg'))]
    simp [Nat.add_assoc]

theorem runGuardsT_all_affirm (gs : List Guard) (frm tgt : String)
    (h : ∀ g ∈ gs, isAffirmative (g frm tgt)) :
    runGuardsT gs frm tgt = ⟨.allow, gs.length, []⟩ := by
  induction gs with
  | nil => rfl
  | cons g gs ih =>
    rw [runGuardsT_cons_affirm _ _ _ _ (h g (List.mem_cons_self _ _)),
      ih (fun g' hg' => h g' (List.mem_cons_of_mem _ hg'))]
    simp

/-- C3: `runGuards` iterates the registered guards in order, awaiting each;
the first guard returning `false` stops the run with result `false` after
exactly `pre.length + 1` invocations (later guards are never invoked); the
first guard returning a string stops the run with that string likewise; and
if every guard returns an affirmative outcome (`true` or no explicit return
value) the run invokes them all and returns `true`. -/
theorem runGuards_stops_at_first_decisive (pre : List Guard) (g : Guard)
    (rest : List Guard) (frm tgt : String)
    (hpre : ∀ g' ∈ pre, isAffirmative (g' frm tgt)) :
    (g frm tgt = .ret false →
      runGuardsT (pre ++ g :: rest) frm tgt = ⟨.cancel, pre.length + 1, []⟩) ∧
    (∀ s, g frm tgt = .redirect s →
      runGuardsT (pre ++ g :: rest) frm tgt = ⟨.redirect s, pre.length + 1, []⟩) ∧
    ((∀ g' ∈ pre ++ g :: rest, isAffirmative (g' frm tgt)) →
      runGuardsT (pre ++ g :: rest) frm tgt = ⟨.allow, (pre ++ g :: rest).length, []⟩) := by
  refine ⟨?_, ?_, ?_⟩
  · intro h
    rw [runGuardsT_append_affirm _ _ _ _ hpre]
    simp [runGuardsT, h, Nat.add_comm]
  · intro s h
    rw [runGuardsT_append_affirm _ _ _ _ hpre]
    simp [runGuardsT, h, Nat.add_comm]
  · intro hall
    exact runGuardsT_all_affirm _ _ _ hall

/-- Witness for C3: with `[allow, cancel, allow]` registered in that order,
the run invokes exactly two guards (the third is never invoked) and
resolves to `false`. -/
theorem runGuards_stops_at_first_decisive_witness :
    runGuardsT [gAllow, gCancel, gAllow] "/a" "/b" = ⟨.cancel, 2, []⟩ :=
  (runGuards_stops_at_first_decisive [gAllow] gCancel [gAllow] "/a" "/b"
    (fun g' hg' => by
      simp only [List.mem_singleton] at hg'
      subst hg'
      exact Or.inl rfl)).1 rfl

/-- C6: a guard that throws is caught: with every earlier guard
affirmative, the run stops right there (no later guard is invoked), the
error message is logged via `console.error`, and the resolved value is
`false` — the same value as if the guard had returned `false`. -/
theorem runGuards_catches_guard_error (pre : List Guard) (g : Guard)
    (rest : List Guard) (frm tgt m : String)
    (hpre : ∀ g' ∈ pre, isAffirmative (g' frm tgt))
    (hthrow : g frm tgt = .throw m) :
    runGuardsT (pre ++ g :: rest) frm tgt = ⟨.cancel, pre.length + 1, [m]⟩ ∧
    runGuards (pre ++ g :: rest) frm tgt = runGuards (pre ++ gCancel :: rest) frm tgt := by
  constructor
  · rw [runGuardsT_append_affirm _ _ _ _ hpre]
    simp [runGuardsT, hthrow, Nat.add_comm]
  · unfold runGuards
    rw [runGuardsT_append_affirm _ _ _ _ hpre, runGuardsT_append_affirm _ _ _ _ hpre]
    simp [runGuardsT, hthrow, gCancel]

/-- Witness for C6: `[allow, throwing, allow]` invokes two guards, logs the
thrown message, resolves to `false`, and agrees with the run where the
throwing guard is replaced by a cancelling one. -/
theorem runGuards_catches_guard_error_witness :
    runGuardsT [gAllow, gBoom, gAllow] "/a" "/b" = ⟨.cancel, 2, ["boom"]⟩ ∧
    runGuards [gAllow, gBoom, gAllow] "/a" "/b" =
      runGuards [gAllow, gCancel, gAllow] "/a" "/b" :=
  runGuards_catches_guard_error [gAllow] gBoom [gAllow] "/a" "/b" "boom"
    (fun g' hg' => by
      simp only [List.mem_singleton] at hg'
      subst hg'
      exact Or.inl rfl) rfl

/-! ### Navigation orchestrator theorems -/

/-- C4: when the guard pipeline cancels, `push` and `replace` resolve to
the boolean `false` (never a thrown error — the model result is a value)
and the environment is returned untouched: no adapter `push`/`replace` is
recorded, `routerState.href` is unchanged, and no after-hook runs. -/
theorem navigation_cancel_untouched (guards : List Guard) (fuel : Nat)
    (tgt : String) (query : Option QueryParams) (env : NavEnv)
    (h : runGuards guards env.loc tgt = .cancel) :
    pushF guards fuel tgt query env = (some false, env) ∧
    replaceF guards fuel tgt query env = (some false, env) := by
  constructor
  · rw [pushF]
    simp only [h]
  · rw [replaceF]
    simp only [h]

/-- Witness for C4: a cancelling guard makes `push` and `replace` resolve
to `false` and leave the starting environment unchanged. -/
theorem navigation_cancel_untouched_witness :
    pushF [gCancel] 5 "/x" none demoEnv = (some false, demoEnv) ∧
    replaceF [gCancel] 5 "/x" none demoEnv = (some false, demoEnv) :=
  navigation_cancel_untouched [gCancel] 5 "/x" none demoEnv rfl

theorem pushF_alwaysLogin (n : Nat) (tgt : String) (q : Option QueryParams)
    (env : NavEnv) : pushF [alwaysLoginGuard] n tgt q env = (none, env) := by
  induction n generalizing tgt q with
  | zero => rfl
  | succ n ih =>
    rw [pushF]
    simp only [show runGuards [alwaysLoginGuard] env.loc tgt =
      .redirect "/login" from rfl]
    exact ih "/login" (some [])

/-- Counterexample for C5 as stated: with a guard that redirects literally
every navigation to `/login`, `push("/admin")` never settles — for any
recursion budget the run exhausts its fuel with the environment untouched,
so the adapter never encodes `/login` (no push operation is recorded) and
no after-hook ever observes `(from, "/login")`. -/
theorem push_always_redirect_never_lands :
    pushF [alwaysLoginGuard] 1000 "/admin" none demoEnv = (none, demoEnv) ∧
    demoEnv.pushedOps = [] ∧ demoEnv.afterCalls = [] :=
  ⟨pushF_alwaysLogin 1000 "/admin" none demoEnv, rfl, rfl⟩

/-- C5 (amended): when a guard redirects, `push` (resp. `replace`)
re-invokes itself on the redirect target with an empty query and returns
that recursive result; consequently a guard that redirects every navigation
*not already bound for `/login`* makes `push("/admin")` land on `/login`:
the adapter encodes `("/login", "")` and the after-hooks observe
`(from, "/login")`, not `(from, "/admin")`. -/
theorem navigation_redirect_recursion (guards : List Guard) (n : Nat)
    (tgt : String) (query : Option QueryParams) (env : NavEnv) (s : String)
    (h : runGuards guards env.loc tgt = .redirect s) :
    pushF guards (n + 1) tgt query env = pushF guards n s (some []) env ∧
    replaceF guards (n + 1) tgt query env = replaceF guards n s (some []) env ∧
    pushF [loginGuard] 2 "/admin" none demoEnv =
      (some true,
        { loc := "/login", origin := "https://ex.am", href := "https://ex.am/login",
          pushedOps := [("/login", "")], replacedOps := [],
          afterCalls := [("/", "/login")] }) := by
  refine ⟨?_, ?_, ?_⟩
  · rw [pushF]
    simp only [h]
  · rw [replaceF]
    simp only [h]
  · rfl

/-- Witness for C5 (amended): one redirect step of `push` literally becomes
the recursive call on the target with an empty query. -/
theorem navigation_redirect_recursion_witness :
    pushF [alwaysLoginGuard] 1 "/admin" none demoEnv =
      pushF [alwaysLoginGuard] 0 "/login" (some []) demoEnv :=
  (navigation_redirect_recursion [alwaysLoginGuard] 0 "/admin" none demoEnv
    "/login" rfl).1

/-! ### Normalizer claim -/

/-- C7: `normalizePath` is idempotent, its result starts with the
separator, contains no doubled separator, empty and bare-separator inputs
yield the root, and a trailing separator never survives unless the result
is the root. -/
theorem normalizePath_spec (p : String) :
    normalizePath (normalizePath p) = normalizePath p ∧
    (normalizePath p).data.head? = some '/' ∧
    hasDoubleSlash (normalizePath p).data = false ∧
    normalizePath "" = "/" ∧ normalizePath "/" = "/" ∧
    (1 < (normalizePath p).length → (normalizePath p).data.getLast? ≠ some '/') :=
  ⟨normalizePath_idem p, normalizePath_head p, normalizePath_no_double p, rfl, rfl,
    fun h => normalizePath_no_trailing p h⟩

/-- Witness for C7 at `"a//b/"` (normalized to `"/a/b"`): idempotence and
the no-trailing-separator conclusion with its length hypothesis
discharged. -/
theorem normalizePath_spec_witness :
    normalizePath (normalizePath "a//b/") = normalizePath "a//b/" ∧
    (normalizePath "a//b/").data.getLast? ≠ some '/' :=
  ⟨(normalizePath_spec "a//b/").1,
    (normalizePath_spec "a//b/").2.2.2.2.2 (by decide)⟩

/-! ### Matching is invariant under pathname normalization -/

/-- C10: both matching operations normalize the pathname once on entry
(and idempotence makes the re-normalization of recursive calls a no-op), so
each is invariant under normalizing its pathname argument. -/
theorem match_normalization_invariant (routes : List IRoute) (p pre : String) :
    matchRoute routes p pre = matchRoute routes (normalizePath p) pre ∧
    findMatchingRoutes routes p pre = findMatchingRoutes routes (normalizePath p) pre := by
  unfold matchRoute findMatchingRoutes
  rw [normalizePath_idem]
  exact ⟨rfl, rfl⟩

/-! ### History-mode adapter claim -/

theorem string_mk_eq_empty_iff (l : List Char) : (⟨l⟩ : String) = "" ↔ l = [] := by
  constructor
  · intro h
    exact congrArg String.data h
  · intro h
    rw [h]

/-- C9: with the stored base (the configured base with one trailing
separator already removed by the constructor) a string-prefix of the
addressable pathname, `getCurrentPath` returns the pathname minus that
prefix, or the root path when the remainder is empty; a trailing separator
on the configured base is ignored by the constructor; and with base
`"/app"` and pathname `"/app/users/1"` the result is `"/users/1"`. -/
theorem history_getCurrentPath_strips_base (b s : String) (rest : List Char)
    (hpre : s.data = (historyBase b).data ++ rest) :
    getCurrentPath (historyBase b) s = (if rest = [] then "/" else ⟨rest⟩) ∧
    (b.data.getLast? ≠ some '/' → historyBase (b ++ "/") = historyBase b) ∧
    getCurrentPath (historyBase "/app") "/app/users/1" = "/users/1" := by
  refine ⟨?_, ?_, rfl⟩
  · have hrm : removeFirstOcc s.data (historyBase b).data = rest := by
      rw [hpre, removeFirstOcc.eq_def,
        if_pos (by rw [List.isPrefixOf_iff_prefix]; exact List.prefix_append _ _),
        List.drop_left]
    unfold getCurrentPath
    by_cases hb : historyBase b = ""
    · rw [if_pos hb]
      have hdata : (historyBase b).data = [] := by
        rw [hb]
      rw [hdata, List.nil_append] at hpre
      have hs : s = (⟨rest⟩ : String) := by
        cases s
        exact congrArg String.mk (by simpa using hpre)
      subst hs
      by_cases hr : rest = []
      · rw [if_pos ((string_mk_eq_empty_iff rest).mpr hr), if_pos hr]
      · rw [if_neg (fun h => hr ((string_mk_eq_empty_iff rest).mp h)), if_neg hr]
    · rw [if_neg hb, hrm]
      by_cases hr : rest = []
      · rw [if_pos ((string_mk_eq_empty_iff rest).mpr hr), if_pos hr]
      · rw [if_neg (fun h => hr ((string_mk_eq_empty_iff rest).mp h)), if_neg hr]
  · intro hlast
    unfold historyBase
    rw [if_neg hlast]
    have hdd : (b ++ "/").data = b.data ++ ['/'] := by
      simp [String.data_append, slash_data]
    rw [if_pos (by rw [hdd]; simp)]
    congr 1
    rw [hdd]
    simp

/-- Witness for C9: base `"/app"`, pathname `"/app/users/1"`, remainder
`"/users/1"`. -/
theorem history_getCurrentPath_strips_base_witness :
    getCurrentPath (historyBase "/app") "/app/users/1" =
      (if ("/users/1").data = [] then "/" else ⟨("/users/1").data⟩) :=
  (history_getCurrentPath_strips_base "/app" "/app/users/1" ("/users/1").data
    (by decide)).1

/-! ### Route matcher claims -/

/-- C1: a node whose full resolved path fully matches the normalized
pathname is matched children-first — its own match (with parameters
extracted from the full template) is returned only when no child matches —
and on the nested `parent > child` configuration, `matchRoute` on
`"/parent/child"` returns the child node as the single most-specific match
while `findMatchingRoutes` returns `[parent, child]` in root-to-leaf
order. -/
theorem matchRoute_children_first (r : IRoute) (rest : List IRoute) (p pre : String)
    (hroot : ¬(r.path = "/" ∧ pre = ""))
    (hmatch : regexpTest (fullPathOf pre r.path) (normalizePath p) = true) :
    (matchRoute (r :: rest) p pre =
      match matchRoute r.children (normalizePath p) (fullPathOf pre r.path) with
      | .error e => .error e
      | .ok (some m) => .ok (some m)
      | .ok none =>
        match extractParams (fullPathOf pre r.path) (normalizePath p) with
        | .error e => .error e
        | .ok ps => .ok (some ⟨r, fullPathOf pre r.path, ps, r.meta⟩)) ∧
    matchRoute [parentRoute] "/parent/child" "" =
      .ok (some ⟨childRoute, "/parent/child", [], []⟩) ∧
    findMatchingRoutes [parentRoute] "/parent/child" "" =
      .ok [⟨parentRoute, "/parent", [], []⟩, ⟨childRoute, "/parent/child", [], []⟩] := by
  refine ⟨?_, ?_, ?_⟩
  · obtain ⟨nm, pp, cs, rd, mt⟩ := r
    simp only [IRoute.path, IRoute.children, IRoute.meta] at *
    unfold matchRoute
    rw [matchLoop]
    rw [if_neg hroot, if_pos hmatch]
  · have h1 : fullPathOf "" "parent" = "/parent" := by decide
    have h2 : normalizePath "/parent/child" = "/parent/child" := by decide
    have h3 : regexpTest "/parent" "/parent/child" = false := by decide
    have h4 : fullPathOf "/parent" "child" = "/parent/child" := by decide
    have h5 : regexpTest "/parent/child" "/parent/child" = true := by decide
    have h6 : extractParams "/parent/child" "/parent/child" = .ok [] := by rfl
    simp [matchRoute, matchLoop, parentRoute, childRoute, h1, h2, h3, h4, h5, h6]
  · have h1 : fullPathOf "" "parent" = "/parent" := by decide
    have h2 : normalizePath "/parent/child" = "/parent/child" := by decide
    have h3 : includedCond "/parent" "/parent/child" = true := by decide
    have h4 : extractParams "/parent" "/parent/child" = .ok [] := by rfl
    have h5 : fullPathOf "/parent" "child" = "/parent/child" := by decide
    have h6 : includedCond "/parent/child" "/parent/child" = true := by decide
    have h7 : extractParams "/parent/child" "/parent/child" = .ok [] := by rfl
    simp [findMatchingRoutes, findLoop, parentRoute, childRoute, h1, h2, h3, h4, h5, h6, h7]

/-- Witness for C1 at a concrete full match: the single route `users/:id`
on pathname `"/users/7"`, whose step equation instantiates to the node's
own match. -/
theorem matchRoute_children_first_witness :
    matchRoute [IRoute.mk none "users/:id" [] none []] "/users/7" "" =
      match matchRoute (IRoute.mk none "users/:id" [] none []).children
          (normalizePath "/users/7") (fullPathOf "" "users/:id") with
      | .error e => .error e
      | .ok (some m) => .ok (some m)
      | .ok none =>
        match extractParams (fullPathOf "" "users/:id") (normalizePath "/users/7") with
        | .error e => .error e
        | .ok ps =>
          .ok (some ⟨IRoute.mk none "users/:id" [] none [], fullPathOf "" "users/:id", ps, []⟩) :=
  (matchRoute_children_first (IRoute.mk none "users/:id" [] none []) [] "/users/7" ""
    (by simp [IRoute.path]) (by decide)).1

/-- Counterexample for C2 as stated: both siblings `routeA` and `routeB`
have full path `/a`, which satisfies the inclusion condition on pathname
`"/a"`, yet the returned list is exactly the one `routeA` match — a node
whose full path matches is *not* always included, because the loop returns
at the first included sibling. -/
theorem findMatchingRoutes_not_iff_counterexample :
    findMatchingRoutes [routeA, routeB] "/a" "" = .ok [⟨routeA, "/a", [], []⟩] ∧
    includedCond (fullPathOf "" routeB.path) (normalizePath "/a") = true ∧
    routeA ≠ routeB := by
  refine ⟨?_, by decide, ?_⟩
  · have h1 : fullPathOf "" "a" = "/a" := by decide
    have h2 : normalizePath "/a" = "/a" := by decide
    have h3 : includedCond "/a" "/a" = true := by decide
    have h4 : extractParams "/a" "/a" = .ok [] := by rfl
    simp [findMatchingRoutes, findLoop, routeA, routeB, h1, h2, h3, h4]
  · intro h
    rw [routeA, routeB] at h
    injection h with h1
    exact absurd h1 (by decide)

/-- C2 (amended): in the sibling loop of `findMatchingRoutes`, the node
currently examined (here the head of the forest, not the root special
case) is included exactly when its full path regexp-matches the normalized
pathname or the normalized pathname is string-prefixed by it — in which
case the traversal returns that node followed by its matching descendants
and never reaches later siblings — and otherwise the loop moves on to the
remaining siblings; the prefix test is a plain string-prefix check, so full
path `"/user"` prefix-matches the pathname `"/username"`. -/
theorem findMatchingRoutes_inclusion (r : IRoute) (rest : List IRoute) (p pre : String)
    (hroot : ¬(r.path = "/" ∧ pre = "")) :
    (includedCond (fullPathOf pre r.path) (normalizePath p) = true →
      findMatchingRoutes (r :: rest) p pre =
        match extractParams (fullPathOf pre r.path) (normalizePath p) with
        | .error e => .error e
        | .ok ps =>
          match findMatchingRoutes r.children (normalizePath p) (fullPathOf pre r.path) with
          | .error e => .error e
          | .ok cms => .ok (⟨r, fullPathOf pre r.path, ps, r.meta⟩ :: cms)) ∧
    (includedCond (fullPathOf pre r.path) (normalizePath p) = false →
      findMatchingRoutes (r :: rest) p pre =
        findMatchingRoutes rest (normalizePath p) pre) ∧
    includedCond "/user" "/username" = true := by
  refine ⟨?_, ?_, by decide⟩
  · intro hinc
    obtain ⟨nm, pp, cs, rd, mt⟩ := r
    simp only [IRoute.path, IRoute.children, IRoute.meta] at *
    unfold findMatchingRoutes
    rw [findLoop]
    rw [if_neg hroot, if_pos hinc]
  · intro hinc
    obtain ⟨nm, pp, cs, rd, mt⟩ := r
    simp only [IRoute.path] at *
    unfold findMatchingRoutes
    rw [findLoop]
    rw [if_neg hroot, if_neg (by simp [hinc]), normalizePath_idem]

/-- Witness for C2 (amended): the layout ancestor `/user` is included on
pathname `"/username"` by the bare prefix check (its regexp does not
match), followed by its (empty) matching descendants. -/
theorem findMatchingRoutes_inclusion_witness :
    findMatchingRoutes [userRoute] "/username" "" =
      match extractParams (fullPathOf "" userRoute.path) (normalizePath "/username") with
      | .error e => .error e
      | .ok ps =>
        match findMatchingRoutes userRoute.children (normalizePath "/username")
            (fullPathOf "" userRoute.path) with
        | .error e => .error e
        | .ok cms => .ok (⟨userRoute, fullPathOf "" userRoute.path, ps, userRoute.meta⟩ :: cms) :=
  (findMatchingRoutes_inclusion userRoute [] "/username" ""
    (by simp [userRoute, IRoute.path])).1 (by decide)

/-! ### Parameter extraction claims -/

theorem extractLoop_eq_zipDecoded (ks : List String) (cs : List (Option String)) :
    extractLoop ks cs = zipDecoded ks cs := by
  induction ks generalizing cs with
  | nil =>
    cases cs <;> simp [extractLoop, zipDecoded, decodeAll]
  | cons k ks ih =>
    cases cs with
    | nil =>
      rw [extractLoop, ih]
      simp [zipDecoded]
    | cons c cs' =>
      cases c with
      | none =>
        rw [extractLoop, ih]
        simp [zipDecoded]
      | some v =>
        rw [extractLoop, ih]
        simp [zipDecoded, decodeAll, List.zip]

/-- Counterexample for C8 as stated: the matcher succeeds on
`extractParams("/users/:id", "/users/%GG")`, capturing `"%GG"`, and
`decodeURIComponent` then throws a `URIError` (`%GG` is not a valid
percent-sequence) — so `extractParams` *can* throw. -/
theorem extractParams_can_throw_counterexample :
    extractParams "/users/:id" "/users/%GG" = .error () ∧
    regexpMatch "/users/:id" "/users/%GG" = some [some "%GG"] :=
  ⟨rfl, rfl⟩

/-- C8 (amended): `extractParams` cannot throw when the compiled matcher
fails — it returns the empty mapping — and on a successful match it
associates each defined captured group, in order, with the corresponding
parameter name from the compiled key list, percent-decoding each captured
value (and propagating the `URIError` when a captured value is a malformed
percent-sequence). -/
theorem extractParams_characterization (t p : String) :
    (regexpMatch t p = none → extractParams t p = .ok []) ∧
    (∀ caps, regexpMatch t p = some caps →
      extractParams t p = zipDecoded (keysOf t) caps) := by
  constructor
  · intro h
    unfold extractParams
    rw [h]
  · intro caps h
    unfold extractParams
    rw [h]
    exact extractLoop_eq_zipDecoded _ _

/-- Witness for C8 (amended): on the match `/users/abc` of `/users/:id`
the extraction is the decoded zip of keys and captures. -/
theorem extractParams_characterization_witness :
    extractParams "/users/:id" "/users/abc" = zipDecoded (keysOf "/users/:id") [some "abc"] :=
  (extractParams_characterization "/users/:id" "/users/abc").2 [some "abc"] rfl

end Router
